import Mathlib

/-!
Verification of the firewall-policy reconciliation engine
(`agent/iptables_helper.py`) and of the lock discipline of the periodic
job executor.

The backend module `iptc_helper` and the `executor` module are part of the
repository but their sources are not available here; their primitives are
modelled from the specification (section 6 for the firewall backend,
sections 4.1 and 4.2 for the lock and the executor) and each such
definition is marked `Modelled from the spec:` in its doc comment.
All other definitions are direct transcriptions of the Python source.
-/

namespace Agent

/-- Rule target, transcribed from the iptc.easy dictionaries used in the
source: either a plain target name (ACCEPT, DROP, or a jump to a chain)
or a LOG target with a log prefix string and a log level string. -/
inductive Target where
  | name (s : String)
  | log (pfx : String) (lvl : String)
deriving DecidableEq, Repr

/-- A firewall rule in iptc.easy dictionary form, as built by the source.
Absent dictionary keys are `none`; two rules are equal exactly when the
corresponding Python dictionaries are equal.  The nested per-protocol
match dictionary of a port rule is keyed by the protocol string itself in
Python, so the pair (protocol, dport) represents it faithfully. -/
structure Rule where
  target : Target
  dst : Option String := none
  protocol : Option String := none
  dport : Option String := none
  inInterface : Option String := none
  ctstate : Option String := none
deriving DecidableEq, Repr

/-- Module constant TABLE = 'filter'. -/
def TABLE : String := "filter"

/-- Module constant DROP_CHAIN = 'WOTT_LOG_DROP'. -/
def DROP_CHAIN : String := "WOTT_LOG_DROP"

/-- Module constant OUTPUT_CHAIN = 'WOTT_OUTPUT'. -/
def OUTPUT_CHAIN : String := "WOTT_OUTPUT"

/-- Module constant INPUT_CHAIN = 'WOTT_INPUT'. -/
def INPUT_CHAIN : String := "WOTT_INPUT"

/-- A chain is an ordered list of rules. -/
abbrev Chain := List Rule

/-- Lookup of a chain by name in an association list of user chains. -/
def lookupC : List (String × Chain) → String → Option Chain
  | [], _ => none
  | (n, rs) :: t, c => if n = c then some rs else lookupC t c

/-- Replace the contents of the named chain in an association list of
user chains; a missing chain is left as a no-op. -/
def setC : List (String × Chain) → String → Chain → List (String × Chain)
  | [], _, _ => []
  | (n, rs) :: t, c, new => if n = c then (n, new) :: t else (n, rs) :: setC t c new

/-- The packet-filter table state of one address family: the two built-in
chains INPUT and OUTPUT (which always exist in iptables), plus the
user-defined chains in creation order. -/
@[ext]
structure Fam where
  input : Chain := []
  output : Chain := []
  user : List (String × Chain) := []
deriving DecidableEq, Repr

/-- Read a chain by name: the built-in INPUT and OUTPUT chains always
exist, user chains are looked up. -/
def getChain (f : Fam) (c : String) : Option Chain :=
  if c = "INPUT" then some f.input
  else if c = "OUTPUT" then some f.output
  else lookupC f.user c

/-- Write a chain by name (no-op when a user chain is missing). -/
def setChain (f : Fam) (c : String) (rs : Chain) : Fam :=
  if c = "INPUT" then { f with input := rs }
  else if c = "OUTPUT" then { f with output := rs }
  else { f with user := setC f.user c rs }

/-- Modelled from the spec: backend `has_chain(table, chain, family)`
(spec section 6) — existence check for a chain. -/
def has_chain (f : Fam) (c : String) : Bool :=
  (getChain f c).isSome

/-- Modelled from the spec: backend `add_chain(table, chain, family)`
(spec section 6) — create an empty chain; the source only calls it when
the chain is absent. -/
def add_chain (f : Fam) (c : String) : Fam :=
  { f with user := f.user ++ [(c, [])] }

/-- Modelled from the spec: backend `flush_chain(table, chain, family)`
(spec section 6) — remove all rules of a chain. -/
def flush_chain (f : Fam) (c : String) : Fam :=
  setChain f c []

/-- Modelled from the spec: backend `get_rule(table, chain, position,
family)` (spec section 6) — read the rule at a 1-based position, `none`
when absent. -/
def get_rule (f : Fam) (c : String) (pos : Nat) : Option Rule :=
  (getChain f c).bind fun rs => rs.get? (pos - 1)

/-- Insert a rule at a 1-based position; position 0 appends at the end,
as in the iptc.easy convention used by the source. -/
def insPos (rs : Chain) (r : Rule) (pos : Nat) : Chain :=
  if pos = 0 then rs ++ [r]
  else rs.take (pos - 1) ++ r :: rs.drop (pos - 1)

/-- Modelled from the spec: backend `add_rule(table, chain, rule,
position, family)` (spec section 6) — insert at a position. -/
def add_rule (f : Fam) (c : String) (r : Rule) (pos : Nat) : Fam :=
  match getChain f c with
  | none => f
  | some rs => setChain f c (insPos rs r pos)

/-- Modelled from the spec: backend `delete_rule(table, chain, rule,
family, raise_on_missing)` (spec section 6) — delete the first rule equal
to the given one; a missing rule is ignored (the source always passes
`raise_exc=False`). -/
def delete_rule (f : Fam) (c : String) (r : Rule) : Fam :=
  match getChain f c with
  | none => f
  | some rs => setChain f c (rs.erase r)

/-- Modelled from the spec: backend `batch_add_rules(table, rules, chain,
family)` in its chain form (spec section 6) — "replaces the chain's
entire active rule list with exactly the given list (full-replace
semantics)". -/
def batch_add_rules (f : Fam) (c : String) (rs : Chain) : Fam :=
  match getChain f c with
  | none => f
  | some _ => setChain f c rs

/-- Modelled from the spec: backend `batch_add_rules(table, rules,
family)` in its triple form (spec section 6) — rules given as (chain,
rule, position) triples, each insert applied in order. -/
def batch_add_rules_pos (f : Fam) (triples : List (String × Rule × Nat)) : Fam :=
  triples.foldl (fun acc t => add_rule acc t.1 t.2.1 t.2.2) f

/-- The two-family backend state: the filter table for IPv4 and for
IPv6.  All reconciler operations use TABLE = 'filter'; the nat and
mangle tables are only read by `dump`, which is modelled over an
abstract snapshot. -/
@[ext]
structure St where
  v4 : Fam := {}
  v6 : Fam := {}
deriving DecidableEq, Repr

/-- Select the family state addressed by the `ipv6` boolean of the
source. -/
def famOf (s : St) (ipv6 : Bool) : Fam :=
  if ipv6 then s.v6 else s.v4

/-- Update the family state addressed by the `ipv6` boolean. -/
def famSet (s : St) (ipv6 : Bool) (f : Fam) : St :=
  if ipv6 then { s with v6 := f } else { s with v4 := f }

/-! ### Transcription of `agent/iptables_helper.py` (pure layer) -/

/-- The LOG rule installed in the log-drop chain by `prepare`:
`{'target': {'LOG': {'log-prefix': 'DROP: ', 'log-level': '3'}}}`. -/
def logRule : Rule := { target := .log "DROP: " "3" }

/-- The unconditional drop rule `{'target': 'DROP'}`. -/
def dropRule : Rule := { target := .name "DROP" }

/-- The jump rule `{'target': target_chain}` built in `prepare`. -/
def jumpRule (target_chain : String) : Rule := { target := .name target_chain }

/-- First block of `prepare` for one family: if the log-drop chain is
absent, create it and install its two static rules with one
`batch_add_rules` backend call; otherwise leave it untouched. -/
def dropChainStep (f : Fam) : Fam :=
  if has_chain f DROP_CHAIN then f
  else batch_add_rules (add_chain f DROP_CHAIN) DROP_CHAIN [logRule, dropRule]

/-- Second and third block of `prepare` for one family: create the named
policy chain when absent, flush it when present. -/
def ensureChain (f : Fam) (c : String) : Fam :=
  if has_chain f c then flush_chain f c else add_chain f c

/-- Jump-rule block of `prepare` for one family and one built-in chain:
read rule #1; when it is not exactly the jump to `target_chain`, delete
any existing copy of that jump rule (missing ignored) and insert it at
position 1. -/
def fixJump (f : Fam) (target_chain chain : String) : Fam :=
  if get_rule f chain 1 = some (jumpRule target_chain) then f
  else add_rule (delete_rule f chain (jumpRule target_chain)) chain (jumpRule target_chain) 1

/-- `prepare()` restricted to one family, in source order: log-drop
chain, WOTT_INPUT, WOTT_OUTPUT, then the jump fix for the built-in INPUT
and OUTPUT chains. -/
def prepareFam (f : Fam) : Fam :=
  fixJump (fixJump (ensureChain (ensureChain (dropChainStep f) INPUT_CHAIN) OUTPUT_CHAIN)
    INPUT_CHAIN "INPUT") OUTPUT_CHAIN "OUTPUT"

/-- `prepare()`: the loop `for ipv6 in (False, True)` over both
families. -/
def prepare (s : St) : St :=
  { v4 := prepareFam s.v4, v6 := prepareFam s.v6 }

/-- The loopback-accept rule `{'in-interface': 'lo', 'target': 'ACCEPT'}`. -/
def loRule : Rule := { inInterface := some "lo", target := .name "ACCEPT" }

/-- The conntrack rule
`{'conntrack': {'ctstate': 'RELATED,ESTABLISHED'}, 'target': 'ACCEPT'}`. -/
def ctRule : Rule := { ctstate := some "RELATED,ESTABLISHED", target := .name "ACCEPT" }

/-- `add_block_rules()` for one family: a single `batch_add_rules` call
with (chain, rule, position) triples — loopback accept at position 1,
conntrack accept at position 2, drop appended (position 0). -/
def add_block_rulesFam (f : Fam) : Fam :=
  batch_add_rules_pos f
    [(INPUT_CHAIN, loRule, 1), (INPUT_CHAIN, ctRule, 2), (INPUT_CHAIN, dropRule, 0)]

/-- `add_block_rules()`: both families. -/
def add_block_rules (s : St) : St :=
  { v4 := add_block_rulesFam s.v4, v6 := add_block_rulesFam s.v6 }

/-- The per-family rule list `rules_ipv` computed inside `add_rules`:
`[rule for rule, is_ipv6 in rules if ipv6 == is_ipv6]`. -/
def rulesIpv (rules : List (Rule × Bool)) (ipv6 : Bool) : Chain :=
  (rules.filter fun q => ipv6 = q.2).map Prod.fst

/-- One family iteration of `add_rules(table, chain, rules)`: filter the
tagged rule list to that family and submit it with one chain-form
`batch_add_rules` call.  The state models the filter table only; the
source passes `table = TABLE = 'filter'` at every call site, and a call
naming another table would leave this state unchanged. -/
def addRulesApp (table chain : String) (rules : List (Rule × Bool)) (ipv6 : Bool)
    (st : St) : St :=
  if table = TABLE then
    famSet st ipv6 (batch_add_rules (famOf st ipv6) chain (rulesIpv rules ipv6))
  else st

/-- `add_rules(table, chain, rules)`: the family loop, one chain-form
`batch_add_rules` call per family. -/
def add_rules (table chain : String) (rules : List (Rule × Bool)) (s : St) : St :=
  addRulesApp table chain rules true (addRulesApp table chain rules false s)

/-- A `ports_data` entry: (host, protocol, port, ipv6), as in the Python
tuples. -/
abbrev PortEntry := String × String × Nat × Bool

/-- `remove_unspecified` from `block_ports`: drop the `dst` key when the
host is the all-zeros IPv4 or IPv6 address. -/
def remove_unspecified (r : Rule) : Rule :=
  if r.dst = some "0.0.0.0" ∨ r.dst = some "::" then { r with dst := none } else r

/-- The tagged rule list built by `block_ports` before submission. -/
def block_ports_rules (allow : Bool) (ports_data : List PortEntry) : List (Rule × Bool) :=
  ports_data.map fun e =>
    match e with
    | (host, proto, port, ipv6) =>
      (remove_unspecified
        { protocol := some proto
          dport := some (toString port)
          dst := some host
          target := if allow then .name DROP_CHAIN else .name "ACCEPT" }, ipv6)

/-- `block_ports(allow, ports_data)`. -/
def block_ports (allow : Bool) (ports_data : List PortEntry) (s : St) : St :=
  add_rules TABLE INPUT_CHAIN (block_ports_rules allow ports_data) s

/-- The tagged rule list built by `block_networks`. -/
def block_networks_rules (network_list : List (String × Bool)) : List (Rule × Bool) :=
  network_list.map fun p => ({ dst := some p.1, target := .name DROP_CHAIN }, p.2)

/-- `block_networks(network_list)`. -/
def block_networks (network_list : List (String × Bool)) (s : St) : St :=
  add_rules TABLE OUTPUT_CHAIN (block_networks_rules network_list) s

/-- The policy document passed to `block`; `none` fields model absent
dictionary keys, read with the same defaults as the Python
`blocklist.get(...)` calls. -/
structure Blocklist where
  policy : Option String := none
  block_networks : Option (List (String × Bool)) := none
  block_ports : Option (List PortEntry) := none
  allow_ports : Option (List PortEntry) := none

/-- The message of `logger.error('Error: unknown policy "..."')`. -/
def unknownPolicyMsg (p : String) : String :=
  "Error: unknown policy \"" ++ p ++ "\""

/-- `block(blocklist)` on the exception-free path: the resulting backend
state together with the list of `logger.error` messages emitted.  The
exception handling at the `block` boundary is modelled separately in the
fallible layer below. -/
def blockRun (blocklist : Blocklist) (s : St) : St × List String :=
  let policy := blocklist.policy.getD "allow"
  let s1 := prepare s
  let s2 := block_networks (blocklist.block_networks.getD []) s1
  if policy = "allow" then (block_ports true (blocklist.block_ports.getD []) s2, [])
  else if policy = "block" then
    (add_block_rules (block_ports false (blocklist.allow_ports.getD []) s2), [])
  else (s2, [unknownPolicyMsg policy])

/-! ### Transcription of `dump()` over an abstract backend snapshot -/

/-- Python truthiness of the optional default-verdict string returned by
`get_policy` (an absent policy and an empty string are both falsy). -/
def pyTruthy (o : Option String) : Bool :=
  match o with
  | none => false
  | some s => s != ""

/-- One chain of the diagnostic export: the `rules` list, plus the
`policy` key when present. -/
structure DumpEntry where
  rules : List Rule
  policy : Option String := none
deriving DecidableEq, Repr

/-- `dump()` for one family, over an abstract backend snapshot given by
`dump_table` and `get_policy` (spec section 6): for each of the tables
filter, nat and mangle, every chain is exported with
`[rule for rule in chain if chain_name != OUTPUT_CHAIN]` as its rule
list and with the policy added when truthy. -/
def dumpFam (dump_table : String → Bool → List (String × Chain))
    (get_policy : String → String → Bool → Option String) (ipv6 : Bool) :
    List (String × List (String × DumpEntry)) :=
  ["filter", "nat", "mangle"].map fun table_name =>
    (table_name, (dump_table table_name ipv6).map fun ch =>
      (ch.1,
        { rules := ch.2.filter fun _ => ch.1 != OUTPUT_CHAIN
          policy :=
            if pyTruthy (get_policy table_name ch.1 ipv6) then get_policy table_name ch.1 ipv6
            else none }))

/-- `dump()`: the pair of per-family exports (the Python result keyed by
'v4' and 'v6'). -/
def dump (dump_table : String → Bool → List (String × Chain))
    (get_policy : String → String → Bool → Option String) :
    List (String × List (String × DumpEntry)) × List (String × List (String × DumpEntry)) :=
  (dumpFam dump_table get_policy false, dumpFam dump_table get_policy true)

/-! ### Fallible layer: backend calls that may raise `iptc.IPTCError`

Modelled from the spec: every backend primitive may raise a backend
error (spec sections 4.3 and 7); an error is represented by its message
string.  A failure schedule injects at most one outcome per backend
call: each call consumes the head of the schedule and fails exactly when
that head carries a message.  State changes made before the failing call
persist, as they do in the Python process. -/

structure FEnv where
  st : St := {}
  sched : List (Option String) := []
  errors : List String := []
deriving DecidableEq, Repr

/-- The computation type of the fallible layer: state plus either a
result or an in-flight `IPTCError` message. -/
def M (α : Type) := FEnv → Except String α × FEnv

instance : Monad M where
  pure a := fun env => (Except.ok a, env)
  bind x f := fun env =>
    match x env with
    | (Except.ok a, env') => f a env'
    | (Except.error m, env') => (Except.error m, env')

/-- A backend call that changes state: consume one schedule slot; raise
when it carries a message, otherwise apply the effect. -/
def prim (eff : St → St) : M Unit := fun env =>
  match env.sched with
  | some m :: rest => (Except.error m, { env with sched := rest })
  | none :: rest => (Except.ok (), { env with sched := rest, st := eff env.st })
  | [] => (Except.ok (), { env with st := eff env.st })

/-- A backend call that reads state: consume one schedule slot; raise
when it carries a message, otherwise return the queried value. -/
def primQ {α : Type} (q : St → α) : M α := fun env =>
  match env.sched with
  | some m :: rest => (Except.error m, { env with sched := rest })
  | none :: rest => (Except.ok (q env.st), { env with sched := rest })
  | [] => (Except.ok (q env.st), env)

/-- A `logger.error` call (never raises, consumes no schedule slot). -/
def logError (msg : String) : M Unit := fun env =>
  (Except.ok (), { env with errors := env.errors ++ [msg] })

/-- Apply a per-family effect to the family selected by `ipv6`. -/
def famEff (ipv6 : Bool) (g : Fam → Fam) (st : St) : St :=
  famSet st ipv6 (g (famOf st ipv6))

/-- Jump-rule block of `prepare`, fallible: `get_rule`, and when rule #1
is not the jump, `delete_rule` then `add_rule`, each a separate backend
call. -/
def fixJumpF (ipv6 : Bool) (target_chain chain : String) : M Unit := do
  let first_rule ← primQ fun st => get_rule (famOf st ipv6) chain 1
  if some (jumpRule target_chain) = first_rule then pure ()
  else do
    prim (famEff ipv6 fun f => delete_rule f chain (jumpRule target_chain))
    prim (famEff ipv6 fun f => add_rule f chain (jumpRule target_chain) 1)

/-- One family iteration of `prepare()`, fallible: every `iptc_helper`
call consumes one schedule slot. -/
def prepareFamF (ipv6 : Bool) : M Unit := do
  let hd ← primQ fun st => has_chain (famOf st ipv6) DROP_CHAIN
  if hd then pure ()
  else do
    prim (famEff ipv6 fun f => add_chain f DROP_CHAIN)
    prim (famEff ipv6 fun f => batch_add_rules f DROP_CHAIN [logRule, dropRule])
  let hi ← primQ fun st => has_chain (famOf st ipv6) INPUT_CHAIN
  if hi then prim (famEff ipv6 fun f => flush_chain f INPUT_CHAIN)
  else prim (famEff ipv6 fun f => add_chain f INPUT_CHAIN)
  let ho ← primQ fun st => has_chain (famOf st ipv6) OUTPUT_CHAIN
  if ho then prim (famEff ipv6 fun f => flush_chain f OUTPUT_CHAIN)
  else prim (famEff ipv6 fun f => add_chain f OUTPUT_CHAIN)
  fixJumpF ipv6 INPUT_CHAIN "INPUT"
  fixJumpF ipv6 OUTPUT_CHAIN "OUTPUT"

/-- `prepare()`, fallible. -/
def prepareF : M Unit := do
  prepareFamF false
  prepareFamF true

/-- `add_rules`, fallible: one chain-form `batch_add_rules` backend call
per family. -/
def add_rulesF (table chain : String) (rules : List (Rule × Bool)) : M Unit := do
  prim (addRulesApp table chain rules false)
  prim (addRulesApp table chain rules true)

/-- `block_networks`, fallible. -/
def block_networksF (network_list : List (String × Bool)) : M Unit :=
  add_rulesF TABLE OUTPUT_CHAIN (block_networks_rules network_list)

/-- `block_ports`, fallible. -/
def block_portsF (allow : Bool) (ports_data : List PortEntry) : M Unit :=
  add_rulesF TABLE INPUT_CHAIN (block_ports_rules allow ports_data)

/-- `add_block_rules`, fallible: one triple-form `batch_add_rules`
backend call per family. -/
def add_block_rulesF : M Unit := do
  prim (famEff false add_block_rulesFam)
  prim (famEff true add_block_rulesFam)

/-- The body of the `try` block of `block(blocklist)`. -/
def block_tryF (blocklist : Blocklist) : M Unit := do
  let policy := blocklist.policy.getD "allow"
  prepareF
  block_networksF (blocklist.block_networks.getD [])
  if policy = "allow" then block_portsF true (blocklist.block_ports.getD [])
  else if policy = "block" then do
    block_portsF false (blocklist.allow_ports.getD [])
    add_block_rulesF
  else logError (unknownPolicyMsg policy)

/-- Python substring containment, `needle in hay`: the needle occurs as
a prefix of some suffix of the haystack. -/
def pyIn (needle hay : String) : Bool :=
  (List.range (hay.data.length + 1)).any fun i => needle.data.isPrefixOf (hay.data.drop i)

/-- The message of the second error logged for a missing kernel module. -/
def rebootMsg : String := "Error: failed to update iptables, try rebooting"

/-- The message of `logger.error('Error while updating iptables: %s', e)`. -/
def updateErrMsg (m : String) : String :=
  "Error while updating iptables: " ++ m

/-- `block(blocklist)` with its `except iptc.IPTCError` handler: a raised
backend error is caught at this boundary, logged, given the extra reboot
hint when its message mentions insmod, and not propagated. -/
def blockF (blocklist : Blocklist) : M Unit := fun env =>
  match block_tryF blocklist env with
  | (Except.ok a, env') => (Except.ok a, env')
  | (Except.error m, env') =>
    (Except.ok (),
      { env' with errors :=
          env'.errors ++ updateErrMsg m :: (if pyIn "insmod" m then [rebootMsg] else []) })

/-! ### The executor lock discipline

Modelled from the spec: the `executor`/`Locker` sources are not under
`src/`; sections 4.1 and 4.2 specify that `Locker(name)` blocks until no
other holder of the same name exists and that job bodies run between
acquisition and release.  Time is abstracted to the order of start and
finish events: a job is executing from its start event to its finish
event, and a start event is only enabled when the starting job is not
already running and, when it holds a lock name, no running job holds the
same name. -/

inductive JEvent where
  | start (j : Nat)
  | fin (j : Nat)
deriving DecidableEq, Repr

/-- The set of running jobs after one event. -/
def stepR (R : List Nat) : JEvent → List Nat
  | .start j => j :: R
  | .fin j => R.erase j

/-- Whether one event is enabled: a job starts only when it is not
running and its lock name (when configured) is held by no running job; a
job finishes only when running. -/
def okStep (lockOf : Nat → Option String) (R : List Nat) : JEvent → Bool
  | .start j =>
    decide (j ∉ R) &&
      (match lockOf j with
       | none => true
       | some n => R.all fun k => lockOf k != some n)
  | .fin j => decide (j ∈ R)

/-- Validity of an event trace from a running set. -/
def validT (lockOf : Nat → Option String) : List Nat → List JEvent → Bool
  | _, [] => true
  | R, e :: t => okStep lockOf R e && validT lockOf (stepR R e) t

/-- The running set reached after a trace. -/
def runS (R : List Nat) (tr : List JEvent) : List Nat :=
  tr.foldl stepR R

/-- A concrete lock assignment: job 1 under lock name "one", job 2 under
lock name "two", jobs 3 and 4 with no lock. -/
def lockOfEx (j : Nat) : Option String :=
  if j = 1 then some "one" else if j = 2 then some "two" else none

/-- Following the claim wording for networks: one drop-to-log-chain rule
per network. -/
def netRule (n : String) : Rule :=
  { dst := some n, target := Target.name DROP_CHAIN }

/-- Following the claim wording for ports: the rule derived from one
(host, protocol, port, family) entry — it matches the protocol and the
destination port, carries a destination match exactly when the host is
not the all-zeros sentinel, and targets the log-drop chain when
`allow = true` and ACCEPT when `allow = false`. -/
def portRuleSpec (allow : Bool) (e : PortEntry) : Rule :=
  { protocol := some e.2.1
    dport := some (toString e.2.2.1)
    dst := if e.1 = "0.0.0.0" ∨ e.1 = "::" then none else some e.1
    target := if allow then Target.name DROP_CHAIN else Target.name "ACCEPT" }

/-! ### Association-list lemmas -/

theorem lookupC_setC_self (u : List (String × Chain)) (c : String) (rs : Chain) :
    lookupC (setC u c rs) c = (lookupC u c).map fun _ => rs := by
  induction u with
  | nil => rfl
  | cons hd tl ih =>
    obtain ⟨n, old⟩ := hd
    by_cases h : n = c
    · simp [setC, lookupC, h]
    · simp [setC, lookupC, h, ih]

theorem lookupC_setC_ne (u : List (String × Chain)) (c c' : String) (rs : Chain)
    (h : c ≠ c') : lookupC (setC u c rs) c' = lookupC u c' := by
  induction u with
  | nil => rfl
  | cons hd tl ih =>
    obtain ⟨n, old⟩ := hd
    by_cases hn : n = c
    · subst hn
      simp [setC, lookupC, h]
    · simp [setC, lookupC, hn, ih]

theorem setC_self_eq (u : List (String × Chain)) (c : String) (rs : Chain)
    (h : lookupC u c = some rs) : setC u c rs = u := by
  induction u with
  | nil => rfl
  | cons hd tl ih =>
    obtain ⟨n, old⟩ := hd
    by_cases hn : n = c
    · simp only [lookupC, hn, if_pos rfl] at h
      simp [setC, hn, h.symm]
      exact (Option.some.injEq _ _ ▸ h).symm ▸ rfl
    · simp only [lookupC, hn, if_neg hn] at h
      simp [setC, hn, ih h]

theorem lookupC_append_none (u v : List (String × Chain)) (c : String)
    (h : lookupC u c = none) : lookupC (u ++ v) c = lookupC v c := by
  induction u with
  | nil => rfl
  | cons hd tl ih =>
    obtain ⟨n, old⟩ := hd
    by_cases hn : n = c
    · simp [lookupC, hn] at h
    · simp only [lookupC, hn, if_neg hn] at h ⊢
      simp [List.cons_append, lookupC, hn, ih h]

theorem lookupC_append_some (u v : List (String × Chain)) (c : String) (rs : Chain)
    (h : lookupC u c = some rs) : lookupC (u ++ v) c = some rs := by
  induction u with
  | nil => simp [lookupC] at h
  | cons hd tl ih =>
    obtain ⟨n, old⟩ := hd
    by_cases hn : n = c
    · simp only [lookupC, if_pos hn] at h ⊢
      simp [List.cons_append, lookupC, hn, h]
    · simp only [lookupC, if_neg hn] at h ⊢
      simp [List.cons_append, lookupC, hn, ih h]

/-! ### Dispatch of chain names: the three owned chains are user chains,
the jump fix addresses the built-in chains. -/

theorem getChain_user_name (f : Fam) (c : String) (h1 : c ≠ "INPUT") (h2 : c ≠ "OUTPUT") :
    getChain f c = lookupC f.user c := by
  rw [getChain, if_neg h1, if_neg h2]

theorem setChain_user_name (f : Fam) (c : String) (rs : Chain) (h1 : c ≠ "INPUT")
    (h2 : c ≠ "OUTPUT") : setChain f c rs = { f with user := setC f.user c rs } := by
  rw [setChain, if_neg h1, if_neg h2]

theorem getChain_builtin_input (f : Fam) : getChain f "INPUT" = some f.input := by
  rw [getChain, if_pos rfl]

theorem getChain_builtin_output (f : Fam) : getChain f "OUTPUT" = some f.output := by
  rw [getChain, if_neg (by decide), if_pos rfl]

theorem setChain_builtin_input (f : Fam) (rs : Chain) :
    setChain f "INPUT" rs = { f with input := rs } := by
  rw [setChain, if_pos rfl]

theorem setChain_builtin_output (f : Fam) (rs : Chain) :
    setChain f "OUTPUT" rs = { f with output := rs } := by
  rw [setChain, if_neg (by decide), if_pos rfl]

/-! ### Behaviour of the chain-form batch call on user chains -/

theorem batch_add_rules_lookup (f : Fam) (c : String) (rs : Chain)
    (h1 : c ≠ "INPUT") (h2 : c ≠ "OUTPUT") :
    lookupC (batch_add_rules f c rs).user c = (lookupC f.user c).map fun _ => rs := by
  rw [batch_add_rules, getChain_user_name f c h1 h2]
  cases h : lookupC f.user c with
  | none => simp [h]
  | some cur => simp [h, setChain_user_name _ _ _ h1 h2, lookupC_setC_self]

theorem batch_add_rules_lookup_ne (f : Fam) (c c' : String) (rs : Chain)
    (h1 : c ≠ "INPUT") (h2 : c ≠ "OUTPUT") (hne : c ≠ c') :
    lookupC (batch_add_rules f c rs).user c' = lookupC f.user c' := by
  rw [batch_add_rules, getChain_user_name f c h1 h2]
  cases h : lookupC f.user c with
  | none => rfl
  | some cur => simp [setChain_user_name _ _ _ h1 h2, lookupC_setC_ne _ _ _ _ hne]

theorem batch_add_rules_input (f : Fam) (c : String) (rs : Chain)
    (h1 : c ≠ "INPUT") (h2 : c ≠ "OUTPUT") :
    (batch_add_rules f c rs).input = f.input := by
  rw [batch_add_rules, getChain_user_name f c h1 h2]
  cases h : lookupC f.user c with
  | none => rfl
  | some cur => simp [setChain_user_name _ _ _ h1 h2]

theorem batch_add_rules_output (f : Fam) (c : String) (rs : Chain)
    (h1 : c ≠ "INPUT") (h2 : c ≠ "OUTPUT") :
    (batch_add_rules f c rs).output = f.output := by
  rw [batch_add_rules, getChain_user_name f c h1 h2]
  cases h : lookupC f.user c with
  | none => rfl
  | some cur => simp [setChain_user_name _ _ _ h1 h2]

/-! ### The log-drop chain step of `prepare` -/

theorem dropChainStep_lookup (f : Fam) :
    lookupC (dropChainStep f).user DROP_CHAIN
      = some ((lookupC f.user DROP_CHAIN).getD [logRule, dropRule]) := by
  by_cases h : has_chain f DROP_CHAIN
  · rw [dropChainStep, if_pos h]
    rw [has_chain, getChain_user_name f DROP_CHAIN (by decide) (by decide)] at h
    obtain ⟨cur, hc⟩ := Option.isSome_iff_exists.mp h
    simp [hc]
  · rw [dropChainStep, if_neg h]
    rw [has_chain, getChain_user_name f DROP_CHAIN (by decide) (by decide),
      Option.isSome_iff_exists] at h
    have hnone : lookupC f.user DROP_CHAIN = none := by
      cases hl : lookupC f.user DROP_CHAIN with
      | none => rfl
      | some cur => exact absurd ⟨cur, hl⟩ h
    rw [batch_add_rules_lookup _ _ _ (by decide) (by decide)]
    rw [add_chain]
    simp only [lookupC_append_none _ _ _ hnone, hnone]
    rfl

theorem dropChainStep_lookup_ne (f : Fam) (c' : String) (hne : DROP_CHAIN ≠ c') :
    lookupC (dropChainStep f).user c' = lookupC f.user c' := by
  by_cases h : has_chain f DROP_CHAIN
  · rw [dropChainStep, if_pos h]
  · rw [dropChainStep, if_neg h,
      batch_add_rules_lookup_ne _ _ _ _ (by decide) (by decide) hne, add_chain]
    cases hl : lookupC f.user c' with
    | none =>
      rw [lookupC_append_none _ _ _ hl]
      simp [lookupC, hne]
    | some cur => rw [lookupC_append_some _ _ _ _ hl]

theorem dropChainStep_input (f : Fam) : (dropChainStep f).input = f.input := by
  by_cases h : has_chain f DROP_CHAIN
  · rw [dropChainStep, if_pos h]
  · rw [dropChainStep, if_neg h, batch_add_rules_input _ _ _ (by decide) (by decide)]
    rfl

theorem dropChainStep_output (f : Fam) : (dropChainStep f).output = f.output := by
  by_cases h : has_chain f DROP_CHAIN
  · rw [dropChainStep, if_pos h]
  · rw [dropChainStep, if_neg h, batch_add_rules_output _ _ _ (by decide) (by decide)]
    rfl

/-! ### The create-or-flush step of `prepare` -/

theorem ensureChain_lookup (g : Fam) (c : String) (h1 : c ≠ "INPUT") (h2 : c ≠ "OUTPUT") :
    lookupC (ensureChain g c).user c = some [] := by
  by_cases h : has_chain g c
  · rw [ensureChain, if_pos h, flush_chain, setChain_user_name _ _ _ h1 h2]
    rw [has_chain, getChain_user_name _ _ h1 h2] at h
    obtain ⟨cur, hc⟩ := Option.isSome_iff_exists.mp h
    simp [lookupC_setC_self, hc]
  · rw [ensureChain, if_neg h, add_chain]
    rw [has_chain, getChain_user_name _ _ h1 h2, Option.isSome_iff_exists] at h
    have hnone : lookupC g.user c = none := by
      cases hl : lookupC g.user c with
      | none => rfl
      | some cur => exact absurd ⟨cur, hl⟩ h
    simp [lookupC_append_none _ _ _ hnone, lookupC]

theorem ensureChain_lookup_ne (g : Fam) (c c' : String) (h1 : c ≠ "INPUT")
    (h2 : c ≠ "OUTPUT") (hne : c ≠ c') :
    lookupC (ensureChain g c).user c' = lookupC g.user c' := by
  by_cases h : has_chain g c
  · rw [ensureChain, if_pos h, flush_chain, setChain_user_name _ _ _ h1 h2]
    exact lookupC_setC_ne _ _ _ _ hne
  · rw [ensureChain, if_neg h, add_chain]
    cases hl : lookupC g.user c' with
    | none =>
      rw [lookupC_append_none _ _ _ hl]
      simp [lookupC, hne]
    | some cur => rw [lookupC_append_some _ _ _ _ hl]

theorem ensureChain_input (g : Fam) (c : String) (h1 : c ≠ "INPUT") (h2 : c ≠ "OUTPUT") :
    (ensureChain g c).input = g.input := by
  by_cases h : has_chain g c
  · rw [ensureChain, if_pos h, flush_chain, setChain_user_name _ _ _ h1 h2]
  · rw [ensureChain, if_neg h]
    rfl

theorem ensureChain_output (g : Fam) (c : String) (h1 : c ≠ "INPUT") (h2 : c ≠ "OUTPUT") :
    (ensureChain g c).output = g.output := by
  by_cases h : has_chain g c
  · rw [ensureChain, if_pos h, flush_chain, setChain_user_name _ _ _ h1 h2]
  · rw [ensureChain, if_neg h]
    rfl

/-! ### The jump-rule step of `prepare` -/

theorem get_rule_builtin_input (f : Fam) : get_rule f "INPUT" 1 = f.input.head? := by
  rw [get_rule, getChain_builtin_input]
  exact List.get?_zero f.input

theorem get_rule_builtin_output (f : Fam) : get_rule f "OUTPUT" 1 = f.output.head? := by
  rw [get_rule, getChain_builtin_output]
  exact List.get?_zero f.output

theorem insPos_one (rs : Chain) (r : Rule) : insPos rs r 1 = r :: rs := by
  simp [insPos]

theorem fixJump_input_input (f : Fam) (tc : String) :
    (fixJump f tc "INPUT").input
      = (if f.input.head? = some (jumpRule tc) then f.input
         else jumpRule tc :: f.input.erase (jumpRule tc)) := by
  rw [fixJump, get_rule_builtin_input]
  by_cases h : f.input.head? = some (jumpRule tc)
  · rw [if_pos h, if_pos h]
  · rw [if_neg h, if_neg h]
    simp [delete_rule, add_rule, getChain_builtin_input, setChain_builtin_input, insPos_one]

theorem fixJump_input_output (f : Fam) (tc : String) :
    (fixJump f tc "INPUT").output = f.output := by
  rw [fixJump, get_rule_builtin_input]
  by_cases h : f.input.head? = some (jumpRule tc)
  · rw [if_pos h]
  · rw [if_neg h]
    simp [delete_rule, add_rule, getChain_builtin_input, setChain_builtin_input]

theorem fixJump_input_user (f : Fam) (tc : String) :
    (fixJump f tc "INPUT").user = f.user := by
  rw [fixJump, get_rule_builtin_input]
  by_cases h : f.input.head? = some (jumpRule tc)
  · rw [if_pos h]
  · rw [if_neg h]
    simp [delete_rule, add_rule, getChain_builtin_input, setChain_builtin_input]

theorem fixJump_output_output (f : Fam) (tc : String) :
    (fixJump f tc "OUTPUT").output
      = (if f.output.head? = some (jumpRule tc) then f.output
         else jumpRule tc :: f.output.erase (jumpRule tc)) := by
  rw [fixJump, get_rule_builtin_output]
  by_cases h : f.output.head? = some (jumpRule tc)
  · rw [if_pos h, if_pos h]
  · rw [if_neg h, if_neg h]
    simp [delete_rule, add_rule, getChain_builtin_output, setChain_builtin_output, insPos_one]

theorem fixJump_output_input (f : Fam) (tc : String) :
    (fixJump f tc "OUTPUT").input = f.input := by
  rw [fixJump, get_rule_builtin_output]
  by_cases h : f.output.head? = some (jumpRule tc)
  · rw [if_pos h]
  · rw [if_neg h]
    simp [delete_rule, add_rule, getChain_builtin_output, setChain_builtin_output]

theorem fixJump_output_user (f : Fam) (tc : String) :
    (fixJump f tc "OUTPUT").user = f.user := by
  rw [fixJump, get_rule_builtin_output]
  by_cases h : f.output.head? = some (jumpRule tc)
  · rw [if_pos h]
  · rw [if_neg h]
    simp [delete_rule, add_rule, getChain_builtin_output, setChain_builtin_output]

/-! ### Characterisation of `prepare` on one family -/

theorem prepareFam_input (f : Fam) :
    (prepareFam f).input
      = (if f.input.head? = some (jumpRule INPUT_CHAIN) then f.input
         else jumpRule INPUT_CHAIN :: f.input.erase (jumpRule INPUT_CHAIN)) := by
  rw [prepareFam, fixJump_output_input, fixJump_input_input,
    ensureChain_input _ _ (by decide) (by decide), ensureChain_input _ _ (by decide) (by decide),
    dropChainStep_input]

theorem prepareFam_output (f : Fam) :
    (prepareFam f).output
      = (if f.output.head? = some (jumpRule OUTPUT_CHAIN) then f.output
         else jumpRule OUTPUT_CHAIN :: f.output.erase (jumpRule OUTPUT_CHAIN)) := by
  rw [prepareFam, fixJump_output_output, fixJump_input_output,
    ensureChain_output _ _ (by decide) (by decide), ensureChain_output _ _ (by decide) (by decide),
    dropChainStep_output]

theorem prepareFam_lookup_drop (f : Fam) :
    lookupC (prepareFam f).user DROP_CHAIN
      = some ((lookupC f.user DROP_CHAIN).getD [logRule, dropRule]) := by
  rw [prepareFam, fixJump_output_user, fixJump_input_user,
    ensureChain_lookup_ne _ OUTPUT_CHAIN DROP_CHAIN (by decide) (by decide) (by decide),
    ensureChain_lookup_ne _ INPUT_CHAIN DROP_CHAIN (by decide) (by decide) (by decide),
    dropChainStep_lookup]

theorem prepareFam_lookup_wi (f : Fam) :
    lookupC (prepareFam f).user INPUT_CHAIN = some [] := by
  rw [prepareFam, fixJump_output_user, fixJump_input_user,
    ensureChain_lookup_ne _ OUTPUT_CHAIN INPUT_CHAIN (by decide) (by decide) (by decide),
    ensureChain_lookup _ _ (by decide) (by decide)]

theorem prepareFam_lookup_wo (f : Fam) :
    lookupC (prepareFam f).user OUTPUT_CHAIN = some [] := by
  rw [prepareFam, fixJump_output_user, fixJump_input_user,
    ensureChain_lookup _ _ (by decide) (by decide)]

theorem head_fix (rs : Chain) (jr : Rule) :
    (if rs.head? = some jr then rs else jr :: rs.erase jr).head? = some jr := by
  by_cases h : rs.head? = some jr
  · rw [if_pos h]
    exact h
  · rw [if_neg h]
    rfl

/-! ### No-op conditions for the `prepare` steps -/

theorem dropChainStep_noop (g : Fam) (h : has_chain g DROP_CHAIN = true) :
    dropChainStep g = g := by
  rw [dropChainStep, if_pos h]

theorem ensureChain_noop (g : Fam) (c : String) (h1 : c ≠ "INPUT") (h2 : c ≠ "OUTPUT")
    (h : lookupC g.user c = some []) : ensureChain g c = g := by
  have hc : has_chain g c = true := by
    rw [has_chain, getChain_user_name _ _ h1 h2, h]
    rfl
  rw [ensureChain, if_pos hc, flush_chain, setChain_user_name _ _ _ h1 h2, setC_self_eq _ _ _ h]

theorem fixJump_noop_input (g : Fam) (tc : String)
    (h : g.input.head? = some (jumpRule tc)) : fixJump g tc "INPUT" = g := by
  rw [fixJump, get_rule_builtin_input, if_pos h]

theorem fixJump_noop_output (g : Fam) (tc : String)
    (h : g.output.head? = some (jumpRule tc)) : fixJump g tc "OUTPUT" = g := by
  rw [fixJump, get_rule_builtin_output, if_pos h]

theorem prepareFam_idem (f : Fam) : prepareFam (prepareFam f) = prepareFam f := by
  have hD : has_chain (prepareFam f) DROP_CHAIN = true := by
    rw [has_chain, getChain_user_name _ _ (by decide) (by decide), prepareFam_lookup_drop]
    rfl
  have hI : (prepareFam f).input.head? = some (jumpRule INPUT_CHAIN) := by
    rw [prepareFam_input]
    exact head_fix _ _
  have hO : (prepareFam f).output.head? = some (jumpRule OUTPUT_CHAIN) := by
    rw [prepareFam_output]
    exact head_fix _ _
  conv_lhs => rw [prepareFam]
  rw [dropChainStep_noop _ hD,
    ensureChain_noop _ _ (by decide) (by decide) (prepareFam_lookup_wi f),
    ensureChain_noop _ _ (by decide) (by decide) (prepareFam_lookup_wo f),
    fixJump_noop_input _ _ hI, fixJump_noop_output _ _ hO]

theorem famOf_prepare (s : St) (fam : Bool) :
    famOf (prepare s) fam = prepareFam (famOf s fam) := by
  cases fam <;> rfl

/-- C5: after `prepare()` returns, for each address family the first rule
of the built-in INPUT and OUTPUT chains is exactly the jump to the
corresponding policy chain; when rule #1 already was that jump the chain
is unchanged, otherwise the pre-existing jump rule is deleted wherever it
is (a missing rule being ignored) and the jump is inserted at position 1;
no rule other than the jump rule changes its number of occurrences. -/
theorem prepare_jump_rule_first (s : St) (fam : Bool) (r : Rule) :
    (famOf (prepare s) fam).input.head? = some (jumpRule INPUT_CHAIN) ∧
    (famOf (prepare s) fam).output.head? = some (jumpRule OUTPUT_CHAIN) ∧
    (famOf (prepare s) fam).input
      = (if (famOf s fam).input.head? = some (jumpRule INPUT_CHAIN) then (famOf s fam).input
         else jumpRule INPUT_CHAIN :: (famOf s fam).input.erase (jumpRule INPUT_CHAIN)) ∧
    (famOf (prepare s) fam).output
      = (if (famOf s fam).output.head? = some (jumpRule OUTPUT_CHAIN) then (famOf s fam).output
         else jumpRule OUTPUT_CHAIN :: (famOf s fam).output.erase (jumpRule OUTPUT_CHAIN)) ∧
    (r ≠ jumpRule INPUT_CHAIN →
      (famOf (prepare s) fam).input.count r = (famOf s fam).input.count r) ∧
    (r ≠ jumpRule OUTPUT_CHAIN →
      (famOf (prepare s) fam).output.count r = (famOf s fam).output.count r) := by
  refine ⟨?_, ?_, ?_, ?_, ?_, ?_⟩
  · rw [famOf_prepare, prepareFam_input]
    exact head_fix _ _
  · rw [famOf_prepare, prepareFam_output]
    exact head_fix _ _
  · rw [famOf_prepare, prepareFam_input]
  · rw [famOf_prepare, prepareFam_output]
  · intro hr
    rw [famOf_prepare, prepareFam_input]
    by_cases h : (famOf s fam).input.head? = some (jumpRule INPUT_CHAIN)
    · rw [if_pos h]
    · rw [if_neg h, List.count_cons_of_ne hr, List.count_erase_of_ne hr]
  · intro hr
    rw [famOf_prepare, prepareFam_output]
    by_cases h : (famOf s fam).output.head? = some (jumpRule OUTPUT_CHAIN)
    · rw [if_pos h]
    · rw [if_neg h, List.count_cons_of_ne hr, List.count_erase_of_ne hr]

/-- Witness for `prepare_jump_rule_first` at a concrete state carrying a
foreign rule ahead of a stray jump rule in the built-in INPUT chain. -/
theorem prepare_jump_rule_first_witness :
    (famOf
        (prepare
          { v4 := { input := [Agent.dropRule, Agent.jumpRule Agent.INPUT_CHAIN] } })
        false).input.count Agent.dropRule
      = (famOf
          { v4 := { input := [Agent.dropRule, Agent.jumpRule Agent.INPUT_CHAIN] } }
          false : Fam).input.count Agent.dropRule :=
  (prepare_jump_rule_first
    { v4 := { input := [Agent.dropRule, Agent.jumpRule Agent.INPUT_CHAIN] } }
    false Agent.dropRule).2.2.2.2.1 (by decide)

/-- C6: `prepare()` is idempotent — running it twice from any backend
state yields the same final chain state as running it once (so the
second run adds no duplicate jump rules and no duplicate static log-drop
rules); moreover on each family the log-drop chain ends up with exactly
its prior content when it already existed and with exactly the two
static rules (log-with-prefix then drop) when it did not, so once
created it is never touched again. -/
theorem prepare_idempotent (s : St) (f : Fam) :
    prepare (prepare s) = prepare s ∧
    lookupC (prepareFam f).user DROP_CHAIN
      = some ((lookupC f.user DROP_CHAIN).getD [logRule, dropRule]) := by
  constructor
  · rw [prepare, prepare]
    simp [prepareFam_idem]
  · exact prepareFam_lookup_drop f

/-! ### The per-family effect of `add_rules` and the submitted lists -/

theorem famOf_add_rules (s : St) (c : String) (rules : List (Rule × Bool)) (fam : Bool) :
    famOf (add_rules TABLE c rules s) fam
      = batch_add_rules (famOf s fam) c (rulesIpv rules fam) := by
  cases fam <;> simp [add_rules, addRulesApp, famSet, famOf]

theorem famOf_add_block_rules (s : St) (fam : Bool) :
    famOf (add_block_rules s) fam = add_block_rulesFam (famOf s fam) := by
  cases fam <;> rfl

theorem rulesIpv_block_networks (nets : List (String × Bool)) (fam : Bool) :
    rulesIpv (block_networks_rules nets) fam
      = (nets.filter fun p => fam = p.2).map fun p => netRule p.1 := by
  induction nets with
  | nil => rfl
  | cons hd tl ih =>
    obtain ⟨n, v6⟩ := hd
    by_cases h : fam = v6
    · simp [block_networks_rules, rulesIpv, List.filter_cons, h, netRule] at ih ⊢
      exact ih
    · simp [block_networks_rules, rulesIpv, List.filter_cons, h, netRule] at ih ⊢
      exact ih

theorem remove_unspecified_eval (h : String) (tgt : Target) (p dp : Option String) :
    remove_unspecified { protocol := p, dport := dp, dst := some h, target := tgt }
      = { protocol := p, dport := dp
          dst := if h = "0.0.0.0" ∨ h = "::" then none else some h
          target := tgt } := by
  by_cases hh : h = "0.0.0.0" ∨ h = "::"
  · simp only [remove_unspecified]
    rw [if_pos (by simpa using hh), if_pos hh]
  · simp only [remove_unspecified]
    rw [if_neg (by simpa using hh), if_neg hh]

theorem rulesIpv_block_ports (allow : Bool) (pd : List PortEntry) (fam : Bool) :
    rulesIpv (block_ports_rules allow pd) fam
      = (pd.filter fun e => fam = e.2.2.2).map (portRuleSpec allow) := by
  induction pd with
  | nil => rfl
  | cons hd tl ih =>
    obtain ⟨host, proto, port, v6⟩ := hd
    by_cases h : fam = v6
    · simp [block_ports_rules, rulesIpv, List.filter_cons, h, remove_unspecified_eval,
        portRuleSpec] at ih ⊢
      exact ih
    · simp [block_ports_rules, rulesIpv, List.filter_cons, h, remove_unspecified_eval,
        portRuleSpec] at ih ⊢
      exact ih

/-! ### The chain contents produced by the two rule-submission steps -/

theorem block_networks_lookup_wo (nets : List (String × Bool)) (s : St) (fam : Bool) :
    lookupC (famOf (block_networks nets s) fam).user OUTPUT_CHAIN
      = (lookupC (famOf s fam).user OUTPUT_CHAIN).map
          fun _ => rulesIpv (block_networks_rules nets) fam := by
  rw [block_networks, famOf_add_rules, batch_add_rules_lookup _ _ _ (by decide) (by decide)]

theorem block_networks_lookup_ne (nets : List (String × Bool)) (s : St) (fam : Bool)
    (c' : String) (hne : OUTPUT_CHAIN ≠ c') :
    lookupC (famOf (block_networks nets s) fam).user c'
      = lookupC (famOf s fam).user c' := by
  rw [block_networks, famOf_add_rules,
    batch_add_rules_lookup_ne _ _ _ _ (by decide) (by decide) hne]

theorem block_ports_lookup_wi (allow : Bool) (pd : List PortEntry) (s : St) (fam : Bool) :
    lookupC (famOf (block_ports allow pd s) fam).user INPUT_CHAIN
      = (lookupC (famOf s fam).user INPUT_CHAIN).map
          fun _ => rulesIpv (block_ports_rules allow pd) fam := by
  rw [block_ports, famOf_add_rules, batch_add_rules_lookup _ _ _ (by decide) (by decide)]

theorem insPos_two (a : Rule) (rs : Chain) (r : Rule) : insPos (a :: rs) r 2 = a :: r :: rs := by
  simp [insPos]

theorem insPos_zero (rs : Chain) (r : Rule) : insPos rs r 0 = rs ++ [r] := by
  simp [insPos]

theorem add_rule_user (f : Fam) (c : String) (r : Rule) (pos : Nat) (cur : Chain)
    (h1 : c ≠ "INPUT") (h2 : c ≠ "OUTPUT") (h : lookupC f.user c = some cur) :
    add_rule f c r pos = { f with user := setC f.user c (insPos cur r pos) } := by
  simp only [add_rule, getChain_user_name _ _ h1 h2, h, setChain_user_name _ _ _ h1 h2]

theorem add_rule_lookup (f : Fam) (c : String) (r : Rule) (pos : Nat) (cur : Chain)
    (h1 : c ≠ "INPUT") (h2 : c ≠ "OUTPUT") (h : lookupC f.user c = some cur) :
    lookupC (add_rule f c r pos).user c = some (insPos cur r pos) := by
  rw [add_rule_user f c r pos cur h1 h2 h]
  show lookupC (setC f.user c (insPos cur r pos)) c = _
  rw [lookupC_setC_self, h]
  rfl

theorem add_block_rulesFam_lookup (f : Fam) (cur : Chain)
    (h : lookupC f.user INPUT_CHAIN = some cur) :
    lookupC (add_block_rulesFam f).user INPUT_CHAIN
      = some (loRule :: ctRule :: (cur ++ [dropRule])) := by
  have l1 := add_rule_lookup f INPUT_CHAIN loRule 1 cur (by decide) (by decide) h
  rw [insPos_one] at l1
  have l2 := add_rule_lookup (add_rule f INPUT_CHAIN loRule 1) INPUT_CHAIN ctRule 2
    (loRule :: cur) (by decide) (by decide) l1
  rw [insPos_two] at l2
  have l3 := add_rule_lookup (add_rule (add_rule f INPUT_CHAIN loRule 1) INPUT_CHAIN ctRule 2)
    INPUT_CHAIN dropRule 0 (loRule :: ctRule :: cur) (by decide) (by decide) l2
  rw [insPos_zero] at l3
  show lookupC (batch_add_rules_pos f _).user INPUT_CHAIN = _
  rw [batch_add_rules_pos]
  simp only [List.foldl_cons, List.foldl_nil]
  exact l3

/-- C2: `block_networks` computes, for each address family, exactly one
drop-to-log-chain rule per network of that family in input order, and
submits that list as a full replacement of the output-policy chain
WOTT_OUTPUT, so an empty per-family input clears that chain and a
network absent from the input has no rule in the replacement. -/
theorem block_networks_full_replace (nets : List (String × Bool)) (s : St) (fam : Bool)
    (n : String) :
    rulesIpv (block_networks_rules nets) fam
      = ((nets.filter fun p => fam = p.2).map fun p => netRule p.1) ∧
    lookupC (famOf (block_networks nets s) fam).user OUTPUT_CHAIN
      = (lookupC (famOf s fam).user OUTPUT_CHAIN).map
          (fun _ => rulesIpv (block_networks_rules nets) fam) ∧
    (netRule n ∈ rulesIpv (block_networks_rules nets) fam ↔ (n, fam) ∈ nets) ∧
    ((∀ p ∈ nets, p.2 ≠ fam) → rulesIpv (block_networks_rules nets) fam = []) := by
  refine ⟨rulesIpv_block_networks nets fam, block_networks_lookup_wo nets s fam, ?_, ?_⟩
  · rw [rulesIpv_block_networks]
    constructor
    · intro hm
      obtain ⟨p, hp, he⟩ := List.mem_map.mp hm
      obtain ⟨hmem, hfam⟩ := List.mem_filter.mp hp
      obtain ⟨p1, p2⟩ := p
      have h1 : p1 = n := by
        have hd := congrArg Rule.dst he
        simpa [netRule] using hd
      have h2 : fam = p2 := by simpa using hfam
      rw [← h1, h2]
      exact hmem
    · intro hm
      exact List.mem_map.mpr ⟨(n, fam), List.mem_filter.mpr ⟨hm, by simp⟩, rfl⟩
  · intro hall
    rw [rulesIpv_block_networks]
    have hnil : (nets.filter fun p => fam = p.2) = [] := by
      apply List.filter_eq_nil_iff.mpr
      intro p hp
      simpa using fun he => (hall p hp) he.symm
    rw [hnil]
    rfl

/-- Witness for `block_networks_full_replace`: a family with no networks
in the input gets the empty replacement list. -/
theorem block_networks_full_replace_witness :
    rulesIpv (block_networks_rules [("10.0.0.0/8", false)]) true = [] :=
  (block_networks_full_replace [("10.0.0.0/8", false)] {} true "10.0.0.0/8").2.2.2
    (by decide)

/-- C3 counterexample: `block_ports` does not insert additively — a rule
for a different port that is already present in the input-policy chain
is removed by the `block_ports` step.  Here the chain holds a rule for
tcp port 80; blocking udp port 53 removes it. -/
theorem block_ports_not_additive_cex :
    ({ protocol := some "tcp", dport := some "80",
       target := Target.name DROP_CHAIN } : Rule)
        ∈ (lookupC
            (famOf
              ({ v4 := { user := [(INPUT_CHAIN,
                  [{ protocol := some "tcp", dport := some "80",
                     target := Target.name DROP_CHAIN }])] } } : St) false).user
            INPUT_CHAIN).getD [] ∧
    ({ protocol := some "tcp", dport := some "80",
       target := Target.name DROP_CHAIN } : Rule)
        ∉ (lookupC
            (famOf
              (block_ports true [("0.0.0.0", "udp", 53, false)]
                { v4 := { user := [(INPUT_CHAIN,
                    [{ protocol := some "tcp", dport := some "80",
                       target := Target.name DROP_CHAIN }])] } }) false).user
            INPUT_CHAIN).getD [] := by
  decide

/-- C3 amended: `block_ports` submits its per-family derived rules
through the same chain-form batch call as `block_networks`, i.e. as a
full replacement of the input-policy chain WOTT_INPUT — rules already
present in the chain, including rules for other ports, are replaced,
not preserved.  (Inside `block()` the difference is masked because
`prepare()` has just flushed the chain.) -/
theorem block_ports_full_replace (allow : Bool) (pd : List PortEntry) (s : St) (fam : Bool) :
    lookupC (famOf (block_ports allow pd s) fam).user INPUT_CHAIN
      = (lookupC (famOf s fam).user INPUT_CHAIN).map
          fun _ => rulesIpv (block_ports_rules allow pd) fam :=
  block_ports_lookup_wi allow pd s fam

/-- C4: `block_ports` derives from every (host, protocol, port, family)
entry exactly one rule — matching that protocol and destination port,
tagged with that entry's family, carrying a destination match equal to
the host exactly when the host is not the all-zeros sentinel, and
targeting WOTT_LOG_DROP when `allow = true` and ACCEPT when
`allow = false` — and routes to each family exactly the rules of the
entries of that family, in order. -/
theorem block_ports_rule_derivation (allow : Bool) (pd : List PortEntry) (fam : Bool) :
    block_ports_rules allow pd = pd.map (fun e => (portRuleSpec allow e, e.2.2.2)) ∧
    rulesIpv (block_ports_rules allow pd) fam
      = (pd.filter fun e => fam = e.2.2.2).map (portRuleSpec allow) := by
  refine ⟨?_, rulesIpv_block_ports allow pd fam⟩
  simp only [block_ports_rules]
  refine List.map_congr_left fun e he => ?_
  obtain ⟨host, proto, port, v6⟩ := e
  rw [remove_unspecified_eval]
  rfl

/-- C8: under overall policy "block", `add_block_rules` runs after
`block_ports`, so for each family the final input-policy chain is the
loopback accept at position 1, the established/related accept at
position 2, the allow-port rules of that family in the middle, and the
unconditional drop appended last — every allow_ports rule precedes the
deny rule. -/
theorem add_block_rules_order (nets : List (String × Bool)) (bp ap : List PortEntry)
    (s : St) (fam : Bool) :
    lookupC (famOf ((blockRun
        { policy := some "block", block_networks := some nets,
          block_ports := some bp, allow_ports := some ap } s).1) fam).user INPUT_CHAIN
      = some (loRule :: ctRule :: (rulesIpv (block_ports_rules false ap) fam ++ [dropRule])) := by
  have hrun : (blockRun
      { policy := some "block", block_networks := some nets,
        block_ports := some bp, allow_ports := some ap } s).1
      = add_block_rules (block_ports false ap (block_networks nets (prepare s))) := by
    simp [blockRun]
  rw [hrun, famOf_add_block_rules]
  apply add_block_rulesFam_lookup
  rw [block_ports_lookup_wi, block_networks_lookup_ne _ _ _ _ (by decide), famOf_prepare,
    prepareFam_lookup_wi]
  rfl

/-- C1: `block(document)` always runs `prepare()` and then
`block_networks` on the document's block_networks; policy "allow" then
runs `block_ports(true, block_ports)`, policy "block" runs
`block_ports(false, allow_ports)` followed by `add_block_rules()`, and
any other policy value logs exactly one error and performs no further
rule changes — the chains are still bootstrapped and the listed networks
are still blocked. -/
theorem block_orchestration (doc : Blocklist) (s : St) (fam : Bool) :
    blockRun doc s
      = (if doc.policy.getD "allow" = "allow" then
           (block_ports true (doc.block_ports.getD [])
             (block_networks (doc.block_networks.getD []) (prepare s)), [])
         else if doc.policy.getD "allow" = "block" then
           (add_block_rules (block_ports false (doc.allow_ports.getD [])
             (block_networks (doc.block_networks.getD []) (prepare s))), [])
         else (block_networks (doc.block_networks.getD []) (prepare s),
               [unknownPolicyMsg (doc.policy.getD "allow")])) ∧
    (doc.policy.getD "allow" ≠ "allow" → doc.policy.getD "allow" ≠ "block" →
      (blockRun doc s).1 = block_networks (doc.block_networks.getD []) (prepare s) ∧
      (blockRun doc s).2 = [unknownPolicyMsg (doc.policy.getD "allow")] ∧
      lookupC (famOf (blockRun doc s).1 fam).user OUTPUT_CHAIN
        = some (rulesIpv (block_networks_rules (doc.block_networks.getD [])) fam) ∧
      lookupC (famOf (blockRun doc s).1 fam).user INPUT_CHAIN = some [] ∧
      (lookupC (famOf (blockRun doc s).1 fam).user DROP_CHAIN).isSome = true) := by
  constructor
  · rfl
  · intro h1 h2
    have hrun : blockRun doc s
        = (block_networks (doc.block_networks.getD []) (prepare s),
           [unknownPolicyMsg (doc.policy.getD "allow")]) := by
      simp only [blockRun]
      rw [if_neg h1, if_neg h2]
    refine ⟨by rw [hrun], by rw [hrun], ?_, ?_, ?_⟩
    · rw [hrun]
      show lookupC (famOf (block_networks (doc.block_networks.getD []) (prepare s)) fam).user
          OUTPUT_CHAIN = _
      rw [block_networks_lookup_wo, famOf_prepare, prepareFam_lookup_wo]
      rfl
    · rw [hrun]
      show lookupC (famOf (block_networks (doc.block_networks.getD []) (prepare s)) fam).user
          INPUT_CHAIN = _
      rw [block_networks_lookup_ne _ _ _ _ (by decide), famOf_prepare, prepareFam_lookup_wi]
    · rw [hrun]
      show (lookupC (famOf (block_networks (doc.block_networks.getD []) (prepare s)) fam).user
          DROP_CHAIN).isSome = true
      rw [block_networks_lookup_ne _ _ _ _ (by decide), famOf_prepare, prepareFam_lookup_drop]
      rfl

/-- Witness for `block_orchestration`: an unknown policy "frobnicate"
still blocks the listed network in the output-policy chain. -/
theorem block_orchestration_witness :
    lookupC (famOf (blockRun
        { policy := some "frobnicate", block_networks := some [("1.2.3.4", false)] } {}).1
        false).user OUTPUT_CHAIN
      = some (rulesIpv (block_networks_rules [("1.2.3.4", false)]) false) :=
  ((block_orchestration
      { policy := some "frobnicate", block_networks := some [("1.2.3.4", false)] } {}
      false).2 (by decide) (by decide)).2.2.1

/-- C10: `dump()` exports, for every one of the tables filter, nat and
mangle and for both address families, every chain of the backend
snapshot with its policy when the backend reports one — but the rule
list of any chain named WOTT_OUTPUT is always empty, regardless of its
actual content, while every other chain keeps its full rule list. -/
theorem dump_hides_output_chain (dt : String → Bool → List (String × Chain))
    (gp : String → String → Bool → Option String) (fam : Bool) :
    (if fam then (dump dt gp).2 else (dump dt gp).1)
      = ["filter", "nat", "mangle"].map fun tn =>
          (tn, (dt tn fam).map fun ch =>
            (ch.1,
              { rules := if ch.1 = OUTPUT_CHAIN then [] else ch.2
                policy := if pyTruthy (gp tn ch.1 fam) then gp tn ch.1 fam
                          else none })) := by
  have hfam : (if fam then (dump dt gp).2 else (dump dt gp).1) = dumpFam dt gp fam := by
    cases fam <;> rfl
  rw [hfam, dumpFam]
  refine List.map_congr_left fun tn htn => ?_
  congr 1
  refine List.map_congr_left fun ch hch => ?_
  congr 1
  congr 1
  by_cases h : ch.1 = OUTPUT_CHAIN
  · simp [h]
  · simp [h]

/-- C7: every backend error raised by any step inside `block()` is
caught once at the `block()` boundary, logged, and not propagated —
`block()` always returns without raising, a successful body leaves the
log as the body left it, and a failing body appends exactly the update
error message, followed by the explicit reboot hint exactly when the
error message mentions insmod. -/
theorem block_never_raises (doc : Blocklist) (env : FEnv) :
    (blockF doc env).1 = Except.ok () ∧
    (∀ env', block_tryF doc env = (Except.ok (), env') →
      blockF doc env = (Except.ok (), env')) ∧
    (∀ m env', block_tryF doc env = (Except.error m, env') →
      blockF doc env
        = (Except.ok (),
           { env' with errors :=
               env'.errors
                 ++ updateErrMsg m :: (if pyIn "insmod" m then [rebootMsg] else []) })) := by
  refine ⟨?_, ?_, ?_⟩
  · rcases h : block_tryF doc env with ⟨r, env'⟩
    cases r with
    | ok a =>
      simp only [blockF]
      rw [h]
    | error m =>
      simp only [blockF]
      rw [h]
  · intro env' h
    simp only [blockF]
    rw [h]
  · intro m env' h
    simp only [blockF]
    rw [h]

/-- Witness for `block_never_raises`: a backend failure at the very
first `prepare` call whose message mentions a missing kernel module is
caught, logged, and followed by the reboot hint. -/
theorem block_never_raises_witness :
    blockF {} { sched := [some "iptables failed: insmod xt_tcp missing"] }
      = (Except.ok (),
         { st := {}, sched := [],
           errors := [updateErrMsg "iptables failed: insmod xt_tcp missing", rebootMsg] }) := by
  have h := (block_never_raises {} { sched := [some "iptables failed: insmod xt_tcp missing"] }).2.2
    "iptables failed: insmod xt_tcp missing" { st := {}, sched := [], errors := [] } rfl
  rw [h]
  rfl

/-! ### Proofs about the executor lock discipline -/

theorem validT_take (lockOf : Nat → Option String) (tr : List JEvent) :
    ∀ (R : List Nat) (i : Nat), validT lockOf R tr = true →
      validT lockOf R (tr.take i) = true := by
  induction tr with
  | nil =>
    intro R i _
    simp [validT]
  | cons e t ih =>
    intro R i h
    cases i with
    | zero => rfl
    | succ n =>
      rw [List.take_succ_cons]
      rw [validT, Bool.and_eq_true] at h ⊢
      exact ⟨h.1, ih _ n h.2⟩

theorem runS_inv (lockOf : Nat → Option String) (tr : List JEvent) :
    ∀ R : List Nat, validT lockOf R tr = true →
      (∀ j k n, j ∈ R → k ∈ R → lockOf j = some n → lockOf k = some n → j = k) →
      ∀ j k n, j ∈ runS R tr → k ∈ runS R tr →
        lockOf j = some n → lockOf k = some n → j = k := by
  induction tr with
  | nil =>
    intro R _ hInv
    exact hInv
  | cons e t ih =>
    intro R hv hInv
    rw [validT, Bool.and_eq_true] at hv
    obtain ⟨h1, h2⟩ := hv
    have hInv' : ∀ j k n, j ∈ stepR R e → k ∈ stepR R e →
        lockOf j = some n → lockOf k = some n → j = k := by
      cases e with
      | start j0 =>
        intro j k n hj hk hlj hlk
        rw [okStep, Bool.and_eq_true] at h1
        obtain ⟨hnotin, hmatch⟩ := h1
        have hj' : j = j0 ∨ j ∈ R := List.mem_cons.mp hj
        have hk' : k = j0 ∨ k ∈ R := List.mem_cons.mp hk
        rcases hj' with hj1 | hj1
        · rcases hk' with hk1 | hk1
          · rw [hj1, hk1]
          · exfalso
            rw [hj1] at hlj
            rw [hlj] at hmatch
            have hcon := List.all_eq_true.mp hmatch k hk1
            rw [hlk] at hcon
            simp at hcon
        · rcases hk' with hk1 | hk1
          · exfalso
            rw [hk1] at hlk
            rw [hlk] at hmatch
            have hcon := List.all_eq_true.mp hmatch j hj1
            rw [hlj] at hcon
            simp at hcon
          · exact hInv j k n hj1 hk1 hlj hlk
      | fin j0 =>
        intro j k n hj hk hlj hlk
        exact hInv j k n (List.mem_of_mem_erase hj) (List.mem_of_mem_erase hk) hlj hlk
    exact ih (stepR R e) h2 hInv'

/-- C9: under the lock discipline of the executor, two jobs holding the
same lock name are never both mid-execution at the same instant — over
any valid trace, any two running jobs whose lock names coincide are the
same job — while jobs under distinct lock names (job 1 under "one" and
job 2 under "two"), or jobs with no lock (jobs 3 and 4), can be
mid-execution simultaneously. -/
theorem executor_lock_exclusion (lockOf : Nat → Option String) (tr : List JEvent)
    (i j k : Nat) (n : String) :
    (validT lockOf [] tr = true → j ∈ runS [] (tr.take i) → k ∈ runS [] (tr.take i) →
      lockOf j = some n → lockOf k = some n → j = k) ∧
    (validT lockOfEx [] [JEvent.start 1, JEvent.start 2, JEvent.fin 1, JEvent.fin 2] = true ∧
      1 ∈ runS [] [JEvent.start 1, JEvent.start 2] ∧
      2 ∈ runS [] [JEvent.start 1, JEvent.start 2]) ∧
    (validT lockOfEx [] [JEvent.start 3, JEvent.start 4, JEvent.fin 3, JEvent.fin 4] = true ∧
      3 ∈ runS [] [JEvent.start 3, JEvent.start 4] ∧
      4 ∈ runS [] [JEvent.start 3, JEvent.start 4]) := by
  refine ⟨?_, by decide, by decide⟩
  intro hv hj hk hlj hlk
  have hvt := validT_take lockOf tr [] i hv
  exact runS_inv lockOf (tr.take i) [] hvt
    (fun j k n hj _ _ _ => absurd hj (List.not_mem_nil j)) j k n hj hk hlj hlk

/-- Witness for `executor_lock_exclusion`: a valid one-event trace in
which job 1, holding lock "one", is running. -/
theorem executor_lock_exclusion_witness :
    validT lockOfEx [] [JEvent.start 1] = true ∧ (1 : Nat) = 1 :=
  ⟨by decide,
    (executor_lock_exclusion lockOfEx [JEvent.start 1] 1 1 1 "one").1 (by decide) (by decide)
      (by decide) (by decide) (by decide)⟩

end Agent
